import Mathlib

/-!
Verification development for the pyjira command-line client.

The definitions below are a shallow embedding of the core logic of
`src/jira_cli/cli.py` (alias resolution and dispatch in `run`, the JQL
filter construction in `list`, the batched loop in `bulk_update`) and of
`bulk_update_batch` in `src/pyjira/client.py`.  Python strings become
`String`, Python lists become `List`, `None`-able strings become
`Option String`, and the `click` command registry becomes an explicit
lookup over the names that are registered on the `cli` group.  Calls to
the remote issue-service client are recorded as events rather than
performed, since the client itself is out of scope.
-/

/-! ## Command tokenizer

Embedding of the quote-aware splitting loop in `run`
(`src/jira_cli/cli.py` lines 47-64): a `"` character toggles `in_quotes`
and is itself appended to the current token; a space outside quotes ends
the current token (empty current tokens are not emitted); every other
character is appended to the current token.  At end of input the current
token, if non-empty, is emitted — an unterminated quote therefore still
closes the token.
-/

def tokenizeAux : List Char → Bool → List Char → List String → List String
  | [], _, currentPart, acc =>
      if currentPart.isEmpty then acc else acc ++ [String.mk currentPart]
  | c :: cs, inQuotes, currentPart, acc =>
      if c = '"' then
        tokenizeAux cs (!inQuotes) (currentPart ++ [c]) acc
      else if c = ' ' ∧ inQuotes = false then
        if currentPart.isEmpty then
          tokenizeAux cs inQuotes [] acc
        else
          tokenizeAux cs inQuotes [] (acc ++ [String.mk currentPart])
      else
        tokenizeAux cs inQuotes (currentPart ++ [c]) acc

def tokenize (s : String) : List String :=
  tokenizeAux s.data false [] []

/-! ## Argument normalization for the `list` command

Embedding of `src/jira_cli/cli.py` lines 76-90: when the resolved
command is `list`, each argument that starts with `--` and contains `=`
is split at the first `=` and the value is stripped of `"` characters
(Python `str.strip` removes the character from both ends); a bare `--`
option is forwarded verbatim; any other argument is stripped of `"`
characters.
-/

def stripQuotes (s : String) : String :=
  String.mk (((s.data.dropWhile (fun c => c == '"')).reverse.dropWhile
      (fun c => c == '"')).reverse)

def splitEqOnce (s : String) : String × String :=
  (String.mk (s.data.takeWhile (fun c => !(c == '='))),
   String.mk ((s.data.dropWhile (fun c => !(c == '='))).drop 1))

def formatArg (arg : String) : List String :=
  if "--".data.isPrefixOf arg.data then
    if arg.data.contains '=' then
      [(splitEqOnce arg).fst, stripQuotes (splitEqOnce arg).snd]
    else
      [arg]
  else
    [stripQuotes arg]

def formatArgs (args : List String) : List String :=
  (args.map formatArg).flatten

/-! ## Python truthiness for optional strings

A `click` option with no default is `None` when absent; `if x:` on an
optional string — as in `if alias_command:` at `src/jira_cli/cli.py`
line 46 — is false for `None` and for the empty string.
-/

def truthy : Option String → Bool
  | none => false
  | some s => !(s == "")

theorem truthy_none : truthy none = false := rfl

/-! ## The command registry and alias dispatch

`config.load_config()` exposes an `aliases` mapping; we model the store
as an association list of name/template pairs (`get_alias_command`,
lines 20-24).  The `click` group registry `cli.commands` contains the
hidden `run` command (defined first, lines 40-43), then one synthesized
command per configured alias (lines 104-118), then the remaining
built-in commands (defined after the alias loop; `click` derives their
names from the function names with underscores replaced by dashes).
Because `click`'s `add_command` overwrites on name collision, a built-in
defined after the alias loop shadows a synthesized alias command of the
same name, and a synthesized alias command shadows `run`.
-/

def getAliasCommand (store : List (String × String)) (name : String) :
    Option String :=
  (store.find? (fun p => p.fst == name)).map Prod.snd

/-- Built-in commands registered on the `cli` group after the alias loop
(definition order in `src/jira_cli/cli.py` lines 121-583). -/
def cliCommandsAfterRun : List String :=
  ["view", "bulk-update", "watch", "velocity", "sprint", "fields",
   "update", "comment", "export", "attach", "log", "list", "create",
   "transitions", "transition", "link", "my"]

/-- A handler found in `cli.commands`: either a built-in command or the
synthesized command of a configured alias. -/
inductive CommandHandler where
  | builtin (name : String)
  | aliasCmd (aliasName : String)
  deriving DecidableEq, Repr

def lookupCommand (store : List (String × String)) (name : String) :
    Option CommandHandler :=
  if cliCommandsAfterRun.contains name then some (.builtin name)
  else if (store.map Prod.fst).contains name then some (.aliasCmd name)
  else if name = "run" then some (.builtin "run")
  else none

/-- Observable outcome of the `run` command.  `invoked cmd args` records
that `cli.commands[cmd].main(args=args, standalone_mode=False)` was
reached for the built-in command `cmd`; `usageError n` records
`raise click.UsageError` (the unknown-command path, or `click` failing
to parse a missing required argument); `indexError` records the uncaught
`IndexError` from `parts[0]` on an empty token list; `outOfFuel` marks
exhaustion of the recursion budget of the model (the Python code has no
such bound and can recurse without limit). -/
inductive DispatchResult where
  | invoked (command : String) (args : List String)
  | usageError (name : String)
  | indexError
  | outOfFuel
  deriving DecidableEq, Repr

/-- Embedding of the `run` command (`src/jira_cli/cli.py` lines 43-102)
together with the synthesized alias commands (lines 104-118), which
re-invoke `run` on their alias name.  The guard `if alias_command:`
(line 46) is a Python truthiness test, so the alias branch is taken
only when the configured template is a non-empty string; with a falsy
template (no alias configured, or an empty template) the non-alias
branch looks the invoked name up in `cli.commands`, where an alias's
own synthesized command re-invokes `run` on the same name.  The first
`fuel` argument bounds the re-invocation depth so the model is total;
every claim is proved with enough fuel.  `click`'s parsing of the
forwarded argv by the target command is not modelled beyond the
recorded argv itself. -/
def runAlias (store : List (String × String)) :
    Nat → String → List String → DispatchResult
  | 0, _, _ => .outOfFuel
  | fuel + 1, commandOrAlias, args =>
    let aliasCommand := getAliasCommand store commandOrAlias
    if truthy aliasCommand then
      match tokenize (aliasCommand.getD "") with
      | [] => .indexError
      | commandName :: restParts =>
        match lookupCommand store commandName with
        | some handler =>
          let commandArgs :=
            if commandName = "list" then formatArgs (restParts ++ args)
            else restParts ++ args
          match handler with
          | .builtin b =>
            if b = "run" then
              match commandArgs with
              | [] => .usageError "run"
              | a :: rest => runAlias store fuel a rest
            else .invoked b commandArgs
          | .aliasCmd a => runAlias store fuel a commandArgs
        | none => .usageError commandName
    else
      match lookupCommand store commandOrAlias with
      | some (.builtin b) =>
        if b = "run" then
          match args with
          | [] => .usageError "run"
          | a :: rest => runAlias store fuel a rest
        else .invoked b args
      | some (.aliasCmd a) => runAlias store fuel a args
      | none => .usageError commandOrAlias

example :
    runAlias [("todo", "list --status=\"To Do\"")] 2 "todo" [] =
      .invoked "list" ["--status", "To Do"] := by decide

example :
    runAlias [("v", "view $1")] 2 "v" ["KEY-1"] =
      .invoked "view" ["$1", "KEY-1"] := by decide

example :
    runAlias [("a", "b"), ("b", "view X")] 3 "a" [] =
      .invoked "view" ["X"] := by decide

/-- Python `a or b` on optional strings: `b` when `a` is falsy. -/
def pyOr (a b : Option String) : Option String :=
  if truthy a then a else b

/-- Python `sep.join(parts)`. -/
def pyJoin (sep : String) : List String → String
  | [] => ""
  | [part] => part
  | part :: rest => part ++ sep ++ pyJoin sep rest

/-! ## JQL filter construction in the `list` command

Embedding of `src/jira_cli/cli.py` lines 423-442: conditions are
appended in the fixed order project (with the `JIRA_DEFAULT_PROJECT`
environment fallback), assignee, status, then the free-text query in
parentheses; if the query is falsy and no condition was collected, the
single default condition is used; the conditions are joined with
`" AND "`.
-/

def buildJql (query : String)
    (status assignee project envDefaultProject : Option String) : String :=
  let projectToUse := pyOr project envDefaultProject
  let conditions : List String := []
  let conditions :=
    if truthy projectToUse then
      conditions ++ ["project = " ++ projectToUse.getD ""]
    else conditions
  let conditions :=
    if truthy assignee then
      conditions ++ ["assignee = " ++ assignee.getD ""]
    else conditions
  let conditions :=
    if truthy status then
      conditions ++ ["status = \x27" ++ status.getD "" ++ "\x27"]
    else conditions
  let conditions :=
    if !(query == "") then conditions ++ ["(" ++ query ++ ")"]
    else if conditions.isEmpty then ["assignee = currentUser()"]
    else conditions
  pyJoin " AND " conditions

example : buildJql "" none none none none = "assignee = currentUser()" := by
  decide

example :
    buildJql "" (some "In Progress") none (some "X") none =
      "project = X AND status = \x27In Progress\x27" := by decide

/-! ## The batched bulk-update pipeline

Embedding of the loop in `bulk_update` (`src/jira_cli/cli.py` lines
178-195).  The state tracks the `updated` counter, the pending `batch`,
the values passed to `progress.update(task, advance=...)` in order, and
every invocation of `client.bulk_update_batch` in order.  A call to the
client may raise (`JiraApiError`); the `fails` parameter tells which
batch arguments do.  A raised exception propagates out of the loop
(caught only at the top of `bulk_update`, which prints the error and
exits 1 without printing the success message), so the run result is
`Except`: `.error` holds the state at the moment of the raise —
`updated` not yet incremented and `advance` not yet called for the
failing batch.
-/

structure BulkState (α : Type) where
  updated : Nat
  batch : List α
  advances : List Nat
  calls : List (List α)
  deriving Repr, DecidableEq

def bulkLoop (fails : List α → Bool) (batchSize : Nat) :
    List α → BulkState α → Except (BulkState α) (BulkState α)
  | [], st =>
    -- after the loop: `if batch:` flush of the remainder (lines 192-195)
    if st.batch.isEmpty then .ok st
    else if fails st.batch then .error { st with calls := st.calls ++ [st.batch] }
    else .ok { updated := st.updated + st.batch.length, batch := [],
               advances := st.advances ++ [st.batch.length],
               calls := st.calls ++ [st.batch] }
  | issue :: rest, st =>
    let batch := st.batch ++ [issue]
    if batchSize ≤ batch.length then
      if fails batch then
        .error { st with batch := batch, calls := st.calls ++ [batch] }
      else
        bulkLoop fails batchSize rest
          { updated := st.updated + batch.length, batch := [],
            advances := st.advances ++ [batch.length],
            calls := st.calls ++ [batch] }
    else
      bulkLoop fails batchSize rest { st with batch := batch }

def bulkUpdateRun (fails : List α → Bool) (batchSize : Nat)
    (issues : List α) : Except (BulkState α) (BulkState α) :=
  bulkLoop fails batchSize issues ⟨0, [], [], []⟩

/-- The run against a client whose batch calls all succeed (the
`.error` arm is unreachable then). -/
def bulkRunOk (batchSize : Nat) (issues : List α) : BulkState α :=
  match bulkUpdateRun (fun _ => false) batchSize issues with
  | .ok st => st
  | .error st => st

example :
    (bulkRunOk 2 [1, 2, 3, 4, 5]).calls = [[1, 2], [3, 4], [5]] ∧
    (bulkRunOk 2 [1, 2, 3, 4, 5]).advances = [2, 2, 1] ∧
    (bulkRunOk 2 [1, 2, 3, 4, 5]).updated = 5 := by decide

/-! ## Mutations issued by one batch

Embedding of `bulk_update_batch` (`src/pyjira/client.py` lines 573-606)
as the ordered list of remote mutation calls it issues: per issue, a
`transition_issue` call when `status` is truthy, then one `update_issue`
call when the assembled `fields` dict is non-empty (it gets an
`assignee` entry when `assignee` is truthy and a `labels` entry when
`add_labels` is truthy).  The field values are payloads forwarded to the
out-of-scope remote client; the embedding records which fields are
set. -/

inductive MutationCall (α : Type) where
  | transitionIssue (issue : α) (toStatus : String)
  | updateIssue (issue : α) (fieldNames : List String)
  deriving DecidableEq, Repr

def bulkUpdateBatchCalls (issues : List α)
    (status assignee addLabels : Option String) : List (MutationCall α) :=
  (issues.map (fun issue =>
    (if truthy status then
      [MutationCall.transitionIssue issue (status.getD "")]
     else []) ++
    (let fields :=
      (if truthy assignee then ["assignee"] else []) ++
      (if truthy addLabels then ["labels"] else [])
     if fields.isEmpty then []
     else [MutationCall.updateIssue issue fields]))).flatten

example :
    bulkUpdateBatchCalls [10, 11] (some "Done") none (some "a,b") =
      [.transitionIssue 10 "Done", .updateIssue 10 ["labels"],
       .transitionIssue 11 "Done", .updateIssue 11 ["labels"]] := by decide

example : bulkUpdateBatchCalls [10, 11] none none none = [] := by decide

/-! ## Tokenizer lemmas -/

theorem tokenizeAux_all_space :
    ∀ (cs : List Char) (acc : List String), (∀ c ∈ cs, c = ' ') →
      tokenizeAux cs false [] acc = acc := by
  intro cs
  induction cs with
  | nil => intro acc _; simp [tokenizeAux]
  | cons c cs ih =>
    intro acc h
    have hc : c = ' ' := h c (by simp)
    subst hc
    simp only [tokenizeAux]
    rw [if_neg (by decide), if_pos (by simp), if_pos (by simp)]
    exact ih acc (fun d hd => h d (List.mem_cons_of_mem _ hd))

theorem tokenizeAux_quoted :
    ∀ (inner cs currentPart : List Char) (acc : List String), '"' ∉ inner →
      tokenizeAux (inner ++ cs) true currentPart acc =
        tokenizeAux cs true (currentPart ++ inner) acc := by
  intro inner
  induction inner with
  | nil => intro cs cur acc _; simp
  | cons c inner ih =>
    intro cs cur acc h
    have hc : ¬(c = '"') := fun e => h (e ▸ List.mem_cons_self c inner)
    simp only [List.cons_append, tokenizeAux]
    rw [if_neg hc, if_neg (by simp), List.append_eq,
      ih cs (cur ++ [c]) acc (fun hm => h (List.mem_cons_of_mem _ hm))]
    simp

theorem tokenizeAux_tokens_ne :
    ∀ (cs : List Char) (inQuotes : Bool) (currentPart : List Char)
      (acc : List String), (∀ t ∈ acc, t ≠ "") →
      ∀ t ∈ tokenizeAux cs inQuotes currentPart acc, t ≠ "" := by
  intro cs
  induction cs with
  | nil =>
    intro inQ cur acc hacc t ht
    simp only [tokenizeAux] at ht
    by_cases hc : cur.isEmpty
    · rw [if_pos hc] at ht
      exact hacc t ht
    · rw [if_neg hc] at ht
      rcases List.mem_append.mp ht with hmem | hmem
      · exact hacc t hmem
      · have ht' : t = String.mk cur := by simpa using hmem
        subst ht'
        intro e
        exact hc (by rw [List.isEmpty_iff]; exact congrArg String.data e)
  | cons c cs ih =>
    intro inQ cur acc hacc t ht
    simp only [tokenizeAux] at ht
    split_ifs at ht with h1 h2 h3
    · exact ih (!inQ) (cur ++ [c]) acc hacc t ht
    · exact ih inQ [] acc hacc t ht
    · refine ih inQ [] (acc ++ [String.mk cur]) ?_ t ht
      intro u hu
      rcases List.mem_append.mp hu with hmem | hmem
      · exact hacc u hmem
      · have hu' : u = String.mk cur := by simpa using hmem
        subst hu'
        intro e
        exact h3 (by rw [List.isEmpty_iff]; exact congrArg String.data e)
    · exact ih inQ (cur ++ [c]) acc hacc t ht

/-- C7: for every input string the tokenizer returns a token sequence
without failing (it is a total function whose emitted tokens are never
empty); a quoted run keeps its internal spaces and its quote characters
and forms exactly one token; an unterminated quote at end of string
still closes the current token; the empty string yields the empty token
sequence. -/
theorem c7_tokenizer_total :
    tokenize "" = [] ∧
    (∀ (s t : String), t ∈ tokenize s → t ≠ "") ∧
    (∀ inner : List Char, '"' ∉ inner →
      tokenize (String.mk ('"' :: inner ++ ['"'])) =
        [String.mk ('"' :: inner ++ ['"'])]) ∧
    (∀ inner : List Char, '"' ∉ inner →
      tokenize (String.mk ('"' :: inner)) = [String.mk ('"' :: inner)]) := by
  refine ⟨by decide, ?_, ?_, ?_⟩
  · intro s t ht
    exact tokenizeAux_tokens_ne s.data false [] [] (by simp) t ht
  · intro inner h
    have h1 : tokenize (String.mk ('"' :: inner ++ ['"'])) =
        tokenizeAux (inner ++ ['"']) true ['"'] [] := by
      simp [tokenize, tokenizeAux]
    rw [h1, tokenizeAux_quoted inner ['"'] ['"'] [] h]
    simp [tokenizeAux]
  · intro inner h
    have h1 : tokenize (String.mk ('"' :: inner)) =
        tokenizeAux (inner ++ []) true ['"'] [] := by
      simp [tokenize, tokenizeAux]
    rw [h1, tokenizeAux_quoted inner [] ['"'] [] h]
    simp [tokenizeAux]

/-- Witness for C7 at a concrete quoted run with an internal space. -/
theorem c7_tokenizer_total_witness :
    tokenize (String.mk ('"' :: ['T', 'o', ' ', 'D', 'o'] ++ ['"'])) =
      [String.mk ('"' :: ['T', 'o', ' ', 'D', 'o'] ++ ['"'])] :=
  c7_tokenizer_total.2.2.1 ['T', 'o', ' ', 'D', 'o'] (by decide)

/-! ## Dispatcher lemmas -/

/-- Unfolding of the alias branch of `run` when the expanded first token
is a built-in command registered after the alias loop: the remaining
template tokens followed by the caller's extra arguments are forwarded,
normalized by `formatArgs` exactly when that command is `list`. -/
theorem runAlias_expand_builtin (store : List (String × String))
    (name template cmd : String) (restParts args : List String) (fuel : Nat)
    (halias : getAliasCommand store name = some template)
    (htok : tokenize template = cmd :: restParts)
    (hcmd : cliCommandsAfterRun.contains cmd = true) :
    runAlias store (fuel + 1) name args =
      .invoked cmd
        (if cmd = "list" then formatArgs (restParts ++ args)
         else restParts ++ args) := by
  have htne : ¬(template = "") := by
    intro e
    subst e
    rw [show tokenize "" = [] from rfl] at htok
    exact List.noConfusion htok
  have htr : truthy (some template) = true := by simp [truthy, htne]
  have hrun : ¬(cmd = "run") := by
    intro e
    rw [e] at hcmd
    exact absurd hcmd (by decide)
  simp only [runAlias, halias, htr, if_true, Option.getD_some, htok,
    lookupCommand, hcmd, hrun, if_false]

/-- Unfolding of the alias branch of `run` when the expanded first token
is the name of another configured alias (and of no built-in defined
after the alias loop): the synthesized command of that alias is invoked,
which re-invokes `run` on it — a further alias expansion. -/
theorem runAlias_expand_alias (store : List (String × String))
    (name template other : String) (restParts args : List String) (fuel : Nat)
    (halias : getAliasCommand store name = some template)
    (htok : tokenize template = other :: restParts)
    (hnotBuiltin : cliCommandsAfterRun.contains other = false)
    (hother : (store.map Prod.fst).contains other = true) :
    runAlias store (fuel + 1) name args =
      runAlias store fuel other (restParts ++ args) := by
  have htne : ¬(template = "") := by
    intro e
    subst e
    rw [show tokenize "" = [] from rfl] at htok
    exact List.noConfusion htok
  have htr : truthy (some template) = true := by simp [truthy, htne]
  have hlist : ¬(other = "list") := by
    intro e
    rw [e] at hnotBuiltin
    exact absurd hnotBuiltin (by decide)
  simp only [runAlias, halias, htr, if_true, Option.getD_some, htok,
    lookupCommand, hnotBuiltin, hother, Bool.false_eq_true, if_false,
    if_true, hlist]

example :
    runAlias [("a", "b"), ("b", "view X")] 3 "a" [] =
      runAlias [("a", "b"), ("b", "view X")] 2 "b" [] :=
  runAlias_expand_alias _ "a" "b" "b" [] [] 2 (by decide) (by decide)
    (by decide) (by decide)

/-- Modelled from the spec: the source of `run` contains no placeholder
scanning or substitution code, so the positional placeholder marker the
specification describes ("an index token ... a marker referencing
argument N") is modelled here as the conventional dollar-sign-and-index
token; it is used only to observe that such markers pass through
dispatch untouched. -/
def isPositionalPlaceholder (t : String) : Bool :=
  match t.data with
  | '$' :: rest => !rest.isEmpty && rest.all Char.isDigit
  | _ => false

/-- C3 counterexample: the alias template `view $1` contains exactly one
positional placeholder and the invocation supplies exactly one extra
argument, yet dispatch forwards the literal marker `$1` unchanged and
appends the argument after it: the argument is not substituted into the
placeholder and a literal marker remains in the expanded token
sequence. -/
theorem c3_placeholder_counterexample :
    (tokenize "view $1").filter isPositionalPlaceholder = ["$1"] ∧
    runAlias [("v", "view $1")] 2 "v" ["KEY-1"] =
      .invoked "view" ["$1", "KEY-1"] ∧
    ["$1", "KEY-1"].filter isPositionalPlaceholder ≠ [] := by decide

/-- C3 amended: alias expansion performs no placeholder substitution at
all — for every alias whose template's first token is a built-in
command other than `list`, the dispatched argument sequence is the
remaining template tokens verbatim (placeholder-like markers included)
with the supplied extra arguments appended after them in order. -/
theorem c3_no_substitution (store : List (String × String))
    (name template cmd : String) (restParts args : List String) (fuel : Nat)
    (halias : getAliasCommand store name = some template)
    (htok : tokenize template = cmd :: restParts)
    (hcmd : cliCommandsAfterRun.contains cmd = true)
    (hlist : cmd ≠ "list") :
    runAlias store (fuel + 1) name args = .invoked cmd (restParts ++ args) := by
  rw [runAlias_expand_builtin store name template cmd restParts args fuel
    halias htok hcmd, if_neg hlist]

/-- Witness for C3 as amended: template `view $1` with one extra
argument dispatches `view` with the literal `$1` kept and `KEY-1`
appended. -/
theorem c3_no_substitution_witness :
    runAlias [("v", "view $1")] 2 "v" ["KEY-1"] =
      .invoked "view" (["$1"] ++ ["KEY-1"]) :=
  c3_no_substitution [("v", "view $1")] "v" "view $1" "view" ["$1"]
    ["KEY-1"] 1 (by decide) (by decide) (by decide) (by decide)

/-- C4 counterexample: alias `a` expands to `b`, whose first token names
another configured alias and no built-in command; dispatching `a`
nevertheless produces the invocation of `view X`, which is exactly the
expansion of `b`'s template — a second alias expansion was performed
(via the synthesized command registered for `b`), so the first token
was not treated as a literal command lookup. -/
theorem c4_alias_chain_counterexample :
    getAliasCommand [("a", "b"), ("b", "view X")] "b" = some "view X" ∧
    cliCommandsAfterRun.contains "b" = false ∧
    runAlias [("a", "b"), ("b", "view X")] 3 "a" [] =
      .invoked "view" ["X"] := by decide

/-- C4 amended: alias resolution is not bounded at one level — an alias
whose expanded first token names another configured alias (that no
later-defined built-in shadows) is dispatched to that alias's
synthesized command, which re-invokes `run` and expands the second
alias in turn; in particular a self-referential alias recurses without
bound (the model runs out of any amount of fuel). -/
theorem c4_alias_chaining :
    (∀ (store : List (String × String)) (name template other : String)
      (restParts args : List String) (fuel : Nat),
      getAliasCommand store name = some template →
      tokenize template = other :: restParts →
      cliCommandsAfterRun.contains other = false →
      (store.map Prod.fst).contains other = true →
      runAlias store (fuel + 1) name args =
        runAlias store fuel other (restParts ++ args)) ∧
    (∀ fuel : Nat, runAlias [("a", "a")] fuel "a" [] = .outOfFuel) := by
  constructor
  · exact runAlias_expand_alias
  · intro fuel
    induction fuel with
    | zero => rfl
    | succ n ih =>
      rw [runAlias_expand_alias [("a", "a")] "a" "a" "a" [] [] n (by decide)
        (by decide) (by decide) (by decide)]
      simpa using ih

/-- Witness for C4 as amended: dispatching alias `a` (template `b`)
equals dispatching alias `b` directly with one unit of fuel consumed. -/
theorem c4_alias_chaining_witness :
    runAlias [("a", "b"), ("b", "list")] 3 "a" [] =
      runAlias [("a", "b"), ("b", "list")] 2 "b" [] :=
  c4_alias_chaining.1 [("a", "b"), ("b", "list")] "a" "b" "b" [] [] 2
    (by decide) (by decide) (by decide) (by decide)

/-- C5 counterexample: a dispatched alias invocation whose resolved
command is `view` forwards `--format="json"` as a single token, with
neither the `=` split nor any quote stripping (the second conjunct
shows what the claimed normalization would have produced); the
normalization is therefore not applied to every dispatched alias
invocation. -/
theorem c5_normalization_counterexample :
    runAlias [("v", "view --format=\"json\"")] 2 "v" [] =
      .invoked "view" ["--format=\"json\""] ∧
    formatArgs ["--format=\"json\""] = ["--format", "json"] := by decide

/-- C5 amended: the `--opt=value` split and the quote-stripping
asymmetry are applied only when the resolved command is `list` (where
the `todo` example behaves exactly as claimed); for any other resolved
built-in command the tokens are forwarded verbatim. -/
theorem c5_list_only_normalization :
    (runAlias [("todo", "list --status=\"To Do\"")] 2 "todo" [] =
      .invoked "list" ["--status", "To Do"]) ∧
    (∀ (store : List (String × String)) (name template : String)
      (restParts args : List String) (fuel : Nat),
      getAliasCommand store name = some template →
      tokenize template = "list" :: restParts →
      runAlias store (fuel + 1) name args =
        .invoked "list" (formatArgs (restParts ++ args))) ∧
    (∀ (store : List (String × String)) (name template cmd : String)
      (restParts args : List String) (fuel : Nat),
      getAliasCommand store name = some template →
      tokenize template = cmd :: restParts →
      cliCommandsAfterRun.contains cmd = true → cmd ≠ "list" →
      runAlias store (fuel + 1) name args =
        .invoked cmd (restParts ++ args)) := by
  refine ⟨by decide, ?_, ?_⟩
  · intro store name template restParts args fuel halias htok
    rw [runAlias_expand_builtin store name template "list" restParts args fuel
      halias htok (by decide), if_pos rfl]
  · intro store name template cmd restParts args fuel halias htok hcmd hlist
    rw [runAlias_expand_builtin store name template cmd restParts args fuel
      halias htok hcmd, if_neg hlist]

/-- Witness for C5 as amended: an alias resolving to `list` has its
forwarded tokens normalized by `formatArgs`. -/
theorem c5_list_only_normalization_witness :
    runAlias [("st", "list --status=\"Done\" \"X\"")] 2 "st"
        ["--query=\"q\""] =
      .invoked "list"
        (formatArgs (["--status=\"Done\"", "\"X\""] ++ ["--query=\"q\""])) :=
  c5_list_only_normalization.2.1 [("st", "list --status=\"Done\" \"X\"")]
    "st" "list --status=\"Done\" \"X\"" ["--status=\"Done\"", "\"X\""]
    ["--query=\"q\""] 1 (by decide) (by decide)

/-- C8: an invoked name that is neither a configured alias nor a
registered command fails with the unknown-command usage error, and an
alias whose expanded first token is not registered fails likewise; in
both cases the result is the error, not an `invoked` command handler. -/
theorem c8_unknown_command :
    (∀ (store : List (String × String)) (name : String)
      (args : List String) (fuel : Nat),
      getAliasCommand store name = none →
      lookupCommand store name = none →
      runAlias store (fuel + 1) name args = .usageError name) ∧
    (∀ (store : List (String × String)) (name template cmd : String)
      (restParts args : List String) (fuel : Nat),
      getAliasCommand store name = some template →
      tokenize template = cmd :: restParts →
      lookupCommand store cmd = none →
      runAlias store (fuel + 1) name args = .usageError cmd) := by
  constructor
  · intro store name args fuel h1 h2
    simp only [runAlias, h1, truthy_none, Bool.false_eq_true, if_false, h2]
  · intro store name template cmd restParts args fuel h1 h2 h3
    have htne : ¬(template = "") := by
      intro e
      subst e
      rw [show tokenize "" = [] from rfl] at h2
      exact List.noConfusion h2
    have htr : truthy (some template) = true := by simp [truthy, htne]
    simp only [runAlias, h1, htr, if_true, Option.getD_some, h2, h3]

/-- Witness for C8: the name `frobnicate` is no alias and no command. -/
theorem c8_unknown_command_witness :
    runAlias [] 1 "frobnicate" [] = .usageError "frobnicate" :=
  c8_unknown_command.1 [] "frobnicate" [] 0 (by decide) (by decide)

/-- C9 counterexample: two whitespace-only templates that do not raise
an IndexError.  The tab template is truthy and survives tokenization as
a token (the tokenizer splits only on spaces), so dispatch fails with
the handled unknown-command usage error; the empty template is falsy in
`if alias_command:`, so dispatch takes the non-alias branch, finds the
alias's own synthesized command and re-invokes `run` on the same name
unboundedly — exhausting any fuel in the model, a RecursionError in the
source — never reaching `parts[0]`. -/
theorem c9_whitespace_counterexample :
    "\t".data.all Char.isWhitespace = true ∧
    runAlias [("x", "\t")] 1 "x" [] = .usageError "\t" ∧
    runAlias [("y", "")] 5 "y" [] = .outOfFuel := by decide

theorem getAliasCommand_mem (store : List (String × String))
    (name t : String) (h : getAliasCommand store name = some t) :
    (store.map Prod.fst).contains name = true := by
  unfold getAliasCommand at h
  cases hfind : store.find? (fun p => p.fst == name) with
  | none =>
    rw [hfind] at h
    exact Option.noConfusion h
  | some p =>
    have hbeq := List.find?_some hfind
    have hmem : p ∈ store := List.mem_of_find?_eq_some hfind
    have heq : p.fst = name := by simpa using hbeq
    exact List.elem_eq_true_of_mem
      (heq ▸ List.mem_map_of_mem Prod.fst hmem)

/-- C9 amended: if a configured alias's template is non-empty and
consists only of space characters, invoking `run` on the alias name
reaches the unguarded `parts[0]` on an empty token list and raises an
uncaught IndexError; if the template is the empty string instead, the
guard `if alias_command:` is falsy, so dispatch takes the non-alias
branch, finds the alias's own synthesized command (when no later-
defined built-in shadows the name) and re-invokes `run` on the same
name without bound — a RecursionError, not an IndexError. -/
theorem c9_space_only_template :
    (∀ (store : List (String × String)) (name template : String)
      (args : List String) (fuel : Nat),
      getAliasCommand store name = some template → template ≠ "" →
      (∀ c ∈ template.data, c = ' ') →
      runAlias store (fuel + 1) name args = .indexError) ∧
    (∀ (store : List (String × String)) (name : String)
      (args : List String) (fuel : Nat),
      getAliasCommand store name = some "" →
      cliCommandsAfterRun.contains name = false →
      runAlias store fuel name args = .outOfFuel) := by
  constructor
  · intro store name template args fuel halias htne hspace
    have htr : truthy (some template) = true := by simp [truthy, htne]
    have htok : tokenize template = [] := by
      unfold tokenize
      exact tokenizeAux_all_space template.data [] hspace
    simp only [runAlias, halias, htr, if_true, Option.getD_some, htok]
  · intro store name args fuel halias hname
    induction fuel with
    | zero => rfl
    | succ n ih =>
      have hmem := getAliasCommand_mem store name "" halias
      simp only [runAlias, halias]
      rw [if_neg (by decide)]
      simp only [lookupCommand, hname, Bool.false_eq_true, if_false, hmem,
        if_true]
      exact ih

/-- Witness for C9 as amended: a two-space template raises the
IndexError, and an empty template exhausts any amount of fuel. -/
theorem c9_space_only_template_witness :
    runAlias [("x", "  ")] 1 "x" [] = .indexError ∧
    runAlias [("y", "")] 3 "y" [] = .outOfFuel :=
  ⟨c9_space_only_template.1 [("x", "  ")] "x" "  " [] 0 (by decide)
      (by decide) (by decide),
   c9_space_only_template.2 [("y", "")] "y" [] 3 (by decide) (by decide)⟩

/-! ## Bulk-update loop lemmas -/

/-- The contiguous batches the loop dispatches: `pending` is the batch
under construction; a batch is flushed as soon as it reaches
`batchSize`, and a non-empty remainder is flushed at the end. -/
def chunksGo (batchSize : Nat) : List α → List α → List (List α)
  | [], pending => if pending.isEmpty then [] else [pending]
  | issue :: rest, pending =>
    if batchSize ≤ (pending ++ [issue]).length then
      (pending ++ [issue]) :: chunksGo batchSize rest []
    else chunksGo batchSize rest (pending ++ [issue])

theorem bulkLoop_no_fail {α : Type} (batchSize : Nat) :
    ∀ (issues : List α) (u : Nat) (b : List α) (a : List Nat)
      (c : List (List α)),
      bulkLoop (fun _ => false) batchSize issues ⟨u, b, a, c⟩ =
        .ok ⟨u + ((chunksGo batchSize issues b).map List.length).sum, [],
             a ++ (chunksGo batchSize issues b).map List.length,
             c ++ chunksGo batchSize issues b⟩ := by
  intro issues
  induction issues with
  | nil =>
    intro u b a c
    cases b with
    | nil => simp [bulkLoop, chunksGo]
    | cons x xs => simp [bulkLoop, chunksGo]
  | cons i rest ih =>
    intro u b a c
    simp only [bulkLoop, chunksGo]
    by_cases hlen : batchSize ≤ (b ++ [i]).length
    · rw [if_pos hlen, if_pos hlen]
      rw [if_neg (by simp)]
      rw [ih]
      simp [Nat.add_assoc]
    · rw [if_neg hlen, if_neg hlen]
      exact ih u (b ++ [i]) a c

theorem chunksGo_flatten {α : Type} (batchSize : Nat) :
    ∀ issues pending : List α,
      (chunksGo batchSize issues pending).flatten = pending ++ issues := by
  intro issues
  induction issues with
  | nil => intro pending; cases pending <;> simp [chunksGo]
  | cons i rest ih =>
    intro pending
    simp only [chunksGo]
    by_cases hlen : batchSize ≤ (pending ++ [i]).length
    · rw [if_pos hlen]
      simp [ih]
    · rw [if_neg hlen]
      rw [ih]
      simp

theorem chunksGo_mem {α : Type} (batchSize : Nat) (hpos : 0 < batchSize) :
    ∀ issues pending : List α, pending.length < batchSize →
      ∀ b ∈ chunksGo batchSize issues pending,
        b ≠ [] ∧ b.length ≤ batchSize := by
  intro issues
  induction issues with
  | nil =>
    intro pending hlt b hb
    cases pending with
    | nil => simp [chunksGo] at hb
    | cons x xs =>
      simp [chunksGo] at hb
      subst hb
      exact ⟨by simp, le_of_lt hlt⟩
  | cons i rest ih =>
    intro pending hlt b hb
    simp only [chunksGo] at hb
    by_cases hlen : batchSize ≤ (pending ++ [i]).length
    · rw [if_pos hlen] at hb
      rcases List.mem_cons.mp hb with hb | hb
      · subst hb
        refine ⟨by simp, ?_⟩
        have hl : (pending ++ [i]).length = pending.length + 1 := by simp
        omega
      · exact ih [] (by simpa using hpos) b hb
    · rw [if_neg hlen] at hb
      have hl : (pending ++ [i]).length < batchSize := by omega
      exact ih (pending ++ [i]) hl b hb

theorem chunksGo_dropLast {α : Type} (batchSize : Nat) (hpos : 0 < batchSize) :
    ∀ issues pending : List α, pending.length < batchSize →
      ∀ b ∈ (chunksGo batchSize issues pending).dropLast,
        b.length = batchSize := by
  intro issues
  induction issues with
  | nil =>
    intro pending hlt b hb
    cases pending <;> simp [chunksGo] at hb
  | cons i rest ih =>
    intro pending hlt b hb
    simp only [chunksGo] at hb
    by_cases hlen : batchSize ≤ (pending ++ [i]).length
    · rw [if_pos hlen] at hb
      cases hcs : chunksGo batchSize rest ([] : List α) with
      | nil => rw [hcs] at hb; simp at hb
      | cons c cs =>
        rw [hcs] at hb
        rw [List.dropLast_cons₂] at hb
        rcases List.mem_cons.mp hb with hb | hb
        · subst hb
          have hl : (pending ++ [i]).length = pending.length + 1 := by simp
          omega
        · have hrec := ih [] (by simpa using hpos)
          rw [hcs] at hrec
          exact hrec b hb
    · rw [if_neg hlen] at hb
      have hl : (pending ++ [i]).length < batchSize := by omega
      exact ih (pending ++ [i]) hl b hb

/-- Characterization of a run whose batch calls all succeed. -/
theorem bulkRunOk_eq {α : Type} (batchSize : Nat) (issues : List α) :
    bulkRunOk batchSize issues =
      ⟨((chunksGo batchSize issues []).map List.length).sum, [],
       (chunksGo batchSize issues []).map List.length,
       chunksGo batchSize issues []⟩ := by
  unfold bulkRunOk bulkUpdateRun
  rw [bulkLoop_no_fail]
  simp

/-- C1: for every ordered issue sequence and positive `batchSize`, the
bulk-update pipeline dispatches contiguous non-empty batches of at most
`batchSize` whose concatenation, in order, is exactly the input (each
issue in exactly one batch); every batch except possibly the last has
size exactly `batchSize`; the progress advances are exactly the batch
sizes, one per batch, recorded after the batch's mutation call; the
reported `updated` count equals the number of issues; and 120 issues
with `batchSize` 50 give exactly the batches of sizes 50, 50, 20 with
those advance values and `updated = 120`. -/
theorem c1_batch_partition {α : Type} (issues : List α) (batchSize : Nat)
    (hpos : 0 < batchSize) :
    (bulkRunOk batchSize issues).calls.flatten = issues ∧
    (∀ b ∈ (bulkRunOk batchSize issues).calls,
      b ≠ [] ∧ b.length ≤ batchSize) ∧
    (∀ b ∈ (bulkRunOk batchSize issues).calls.dropLast,
      b.length = batchSize) ∧
    (bulkRunOk batchSize issues).advances =
      (bulkRunOk batchSize issues).calls.map List.length ∧
    (bulkRunOk batchSize issues).updated = issues.length ∧
    (bulkRunOk 50 (List.range 120)).calls.map List.length = [50, 50, 20] ∧
    (bulkRunOk 50 (List.range 120)).advances = [50, 50, 20] ∧
    (bulkRunOk 50 (List.range 120)).updated = 120 := by
  rw [bulkRunOk_eq]
  have hflat := chunksGo_flatten (α := α) batchSize issues []
  simp only [List.nil_append] at hflat
  refine ⟨hflat, ?_, ?_, rfl, ?_, by decide, by decide, by decide⟩
  · exact chunksGo_mem batchSize hpos issues [] (by simpa using hpos)
  · exact chunksGo_dropLast batchSize hpos issues [] (by simpa using hpos)
  · rw [← List.length_flatten, hflat]

/-- Witness for C1 at the spec's concrete run: 120 issues, batch size
50. -/
theorem c1_batch_partition_witness :
    (bulkRunOk 50 (List.range 120)).calls.flatten = List.range 120 ∧
    (bulkRunOk 50 (List.range 120)).updated = 120 :=
  ⟨(c1_batch_partition (List.range 120) 50 (by decide)).1,
   (c1_batch_partition (List.range 120) 50 (by decide)).2.2.2.2.1⟩

theorem bulkLoop_error_inv {α : Type} (fails : List α → Bool)
    (batchSize : Nat) :
    ∀ (issues : List α) (st stErr : BulkState α),
      bulkLoop fails batchSize issues st = .error stErr →
      ∃ good bad, stErr.calls = st.calls ++ good ++ [bad] ∧
        fails bad = true ∧ (∀ b ∈ good, fails b = false) ∧
        stErr.updated = st.updated + (good.map List.length).sum ∧
        stErr.advances = st.advances ++ good.map List.length ∧
        ∃ remaining, good.flatten ++ bad ++ remaining = st.batch ++ issues := by
  intro issues
  induction issues with
  | nil =>
    intro st stErr herr
    simp only [bulkLoop] at herr
    by_cases hb : st.batch.isEmpty
    · rw [if_pos hb] at herr
      simp at herr
    · rw [if_neg hb] at herr
      by_cases hf : fails st.batch = true
      · rw [if_pos hf] at herr
        cases herr
        exact ⟨[], st.batch, by simp, hf, by simp, by simp, by simp, [],
          by simp⟩
      · rw [if_neg hf] at herr
        simp at herr
  | cons i rest ih =>
    intro st stErr herr
    simp only [bulkLoop] at herr
    by_cases hlen : batchSize ≤ (st.batch ++ [i]).length
    · rw [if_pos hlen] at herr
      by_cases hf : fails (st.batch ++ [i]) = true
      · rw [if_pos hf] at herr
        cases herr
        exact ⟨[], st.batch ++ [i], by simp, hf, by simp, by simp, by simp,
          rest, by simp⟩
      · rw [if_neg hf] at herr
        obtain ⟨good, bad, hcalls, hbad, hgood, hupd, hadv, rem, hrem⟩ :=
          ih _ _ herr
        refine ⟨(st.batch ++ [i]) :: good, bad, ?_, hbad, ?_, ?_, ?_, rem, ?_⟩
        · rw [hcalls]; simp
        · intro b hb
          rcases List.mem_cons.mp hb with hb | hb
          · subst hb
            exact Bool.eq_false_iff.mpr hf
          · exact hgood b hb
        · rw [hupd]; simp [Nat.add_assoc]
        · rw [hadv]; simp
        · simp only [List.nil_append] at hrem
          simp only [List.flatten_cons, List.append_assoc] at hrem ⊢
          rw [hrem]
          simp
    · rw [if_neg hlen] at herr
      obtain ⟨good, bad, hcalls, hbad, hgood, hupd, hadv, rem, hrem⟩ :=
        ih _ _ herr
      exact ⟨good, bad, hcalls, hbad, hgood, hupd, hadv, rem,
        by simpa [List.append_assoc] using hrem⟩

/-- C6: when a batch's mutation call fails, the run aborts — the failing
batch is the last call ever issued (all earlier calls succeeded, no
batch after it is dispatched, and the calls cover only a leading part
of the issue sequence) — while the `updated` counter and the progress
advances reported to the user account exactly for the issues of the
batches dispatched and completed before the failure. -/
theorem c6_abort_on_failure {α : Type} (fails : List α → Bool)
    (batchSize : Nat) (issues : List α) (st : BulkState α)
    (herr : bulkUpdateRun fails batchSize issues = .error st) :
    ∃ good bad, st.calls = good ++ [bad] ∧ fails bad = true ∧
      (∀ b ∈ good, fails b = false) ∧
      st.updated = (good.map List.length).sum ∧
      st.advances = good.map List.length ∧
      ∃ remaining, good.flatten ++ bad ++ remaining = issues := by
  obtain ⟨good, bad, hcalls, hbad, hgood, hupd, hadv, rem, hrem⟩ :=
    bulkLoop_error_inv fails batchSize issues ⟨0, [], [], []⟩ st herr
  exact ⟨good, bad, by simpa using hcalls, hbad, hgood, by simpa using hupd,
    by simpa using hadv, rem, by simpa using hrem⟩

/-- Witness for C6: batch size 2 over six issues with a client that
fails on any batch containing issue 3 — the run stops after the second
call with two issues updated and one advance of 2 reported. -/
theorem c6_abort_on_failure_witness :
    ∃ good bad,
      (BulkState.mk 2 [3, 4] [2] [[1, 2], [3, 4]] : BulkState Nat).calls =
        good ++ [bad] ∧
      (fun b : List Nat => b.contains 3) bad = true ∧
      (∀ b ∈ good, (fun b : List Nat => b.contains 3) b = false) ∧
      (BulkState.mk 2 [3, 4] [2] [[1, 2], [3, 4]] : BulkState Nat).updated =
        (good.map List.length).sum ∧
      (BulkState.mk 2 [3, 4] [2] [[1, 2], [3, 4]] : BulkState Nat).advances =
        good.map List.length ∧
      ∃ remaining,
        good.flatten ++ bad ++ remaining = [1, 2, 3, 4, 5, 6] :=
  c6_abort_on_failure (fun b => b.contains 3) 2 [1, 2, 3, 4, 5, 6]
    ⟨2, [3, 4], [2], [[1, 2], [3, 4]]⟩ rfl

theorem bulkUpdateBatchCalls_falsy {α : Type}
    (status assignee addLabels : Option String)
    (hs : truthy status = false) (ha : truthy assignee = false)
    (hl : truthy addLabels = false) :
    ∀ issues : List α,
      bulkUpdateBatchCalls issues status assignee addLabels = [] := by
  intro issues
  induction issues with
  | nil => rfl
  | cons x xs ih =>
    simp only [bulkUpdateBatchCalls, List.map_cons, List.flatten_cons,
      hs, ha, hl] at ih ⊢
    simp [ih]

/-- C10: with an empty update spec (falsy status, assignee and labels)
no batch issues any remote mutation call — neither a transition nor a
field update, for any issue — yet the run still advances the progress
sink once per batch by the batch's size (summing to the total number of
issues) and reports an `updated` count equal to the total number of
matched issues. -/
theorem c10_empty_spec_no_calls {α : Type} (issues : List α)
    (batchSize : Nat) (status assignee addLabels : Option String)
    (hs : truthy status = false) (ha : truthy assignee = false)
    (hl : truthy addLabels = false) :
    ((bulkRunOk batchSize issues).calls.map
        (fun b => bulkUpdateBatchCalls b status assignee addLabels)).flatten
      = [] ∧
    (bulkRunOk batchSize issues).advances =
      (bulkRunOk batchSize issues).calls.map List.length ∧
    ((bulkRunOk batchSize issues).advances).sum = issues.length ∧
    (bulkRunOk batchSize issues).updated = issues.length := by
  have hflat := chunksGo_flatten (α := α) batchSize issues []
  simp only [List.nil_append] at hflat
  have hlen : ((chunksGo batchSize issues []).map List.length).sum =
      issues.length := by
    rw [← List.length_flatten, hflat]
  rw [bulkRunOk_eq]
  refine ⟨?_, rfl, hlen, hlen⟩
  have hnil : ∀ b ∈ chunksGo batchSize issues [],
      bulkUpdateBatchCalls b status assignee addLabels = [] := fun b _ =>
    bulkUpdateBatchCalls_falsy status assignee addLabels hs ha hl b
  simp only [List.flatten_eq_nil_iff, List.mem_map]
  rintro l ⟨b, hb, rfl⟩
  exact hnil b hb

/-- Witness for C10: five issues, batch size 2, all-`none` spec. -/
theorem c10_empty_spec_no_calls_witness :
    ((bulkRunOk 2 [1, 2, 3, 4, 5]).calls.map
        (fun b => bulkUpdateBatchCalls b none none none)).flatten =
      ([] : List (MutationCall Nat)) ∧
    (bulkRunOk 2 [1, 2, 3, 4, 5]).advances =
      (bulkRunOk 2 [1, 2, 3, 4, 5]).calls.map List.length ∧
    ((bulkRunOk 2 [1, 2, 3, 4, 5]).advances).sum = 5 ∧
    (bulkRunOk 2 [1, 2, 3, 4, 5]).updated = 5 :=
  c10_empty_spec_no_calls [1, 2, 3, 4, 5] 2 none none none rfl rfl rfl

/-- C2: the `list` command's JQL construction appends clauses in the
fixed order project, assignee, status, then the parenthesized free-text
query; an absent project falls back to the environment default project
(the two placements are interchangeable); with no inputs the result is
exactly the current-user fallback; the clauses are joined with
`" AND "` and nothing else (order fixed by the algorithm, independent
of how the caller supplied the options), as the two concrete outputs
show. -/
theorem c2_filter_builder :
    (buildJql "" none none none none = "assignee = currentUser()") ∧
    (∀ (query : String) (status assignee envProject : Option String),
      buildJql query status assignee none envProject =
        buildJql query status assignee envProject none) ∧
    (∀ (p a s q : String) (e : Option String),
      p ≠ "" → a ≠ "" → s ≠ "" → q ≠ "" →
      buildJql q (some s) (some a) (some p) e =
        pyJoin " AND "
          ["project = " ++ p, "assignee = " ++ a,
           "status = \x27" ++ s ++ "\x27", "(" ++ q ++ ")"]) ∧
    (buildJql "" (some "In Progress") none (some "X") none =
      "project = X AND status = \x27In Progress\x27") ∧
    (buildJql "updated >= -7d" (some "In Progress") (some "bob") (some "X")
        none =
      "project = X AND assignee = bob AND status = \x27In Progress\x27 AND (updated >= -7d)") := by
  refine ⟨by decide, ?_, ?_, by decide, by decide⟩
  · intro query status assignee envProject
    cases envProject with
    | none => rfl
    | some v =>
      by_cases hv : v = ""
      · subst hv; rfl
      · have h1 : truthy (some v) = true := by simp [truthy, hv]
        simp only [buildJql, pyOr, h1, truthy_none, Bool.false_eq_true,
          if_false, if_true]
  · intro p a s q e hp ha hs hq
    have hp' : truthy (some p) = true := by simp [truthy, hp]
    have ha' : truthy (some a) = true := by simp [truthy, ha]
    have hs' : truthy (some s) = true := by simp [truthy, hs]
    have hq' : (!(q == "")) = true := by simp [hq]
    simp [buildJql, pyOr, hp', ha', hs', hq', Option.getD]

/-- Witness for C2 at concrete non-empty inputs for all four clause
slots. -/
theorem c2_filter_builder_witness :
    buildJql "q1" (some "S") (some "A") (some "P") none =
      pyJoin " AND "
        ["project = " ++ "P", "assignee = " ++ "A",
         "status = \x27" ++ "S" ++ "\x27", "(" ++ "q1" ++ ")"] :=
  c2_filter_builder.2.2.1 "P" "A" "S" "q1" none (by decide) (by decide)
    (by decide) (by decide)
